import Mathlib

/-!
Verification development for the tab-wrangler inactive-tab reclamation engine.

The definitions below are a shallow embedding of the TypeScript source:
the background script (two coexisting variants: a timeout-based one and the
canonical alarm-based one), `tabUtil` and the in-memory `tabTimesCache`.
Timestamps are JavaScript epoch-millisecond numbers, modelled as `Int`
(they can go negative under JS subtraction `now - stayOpen`).
JS objects keyed by stringified tab ids are modelled as association lists
`List (Nat × Int)`; url-keyed objects as `List (String × Int)`.
A JS write under the key `String(undefined)` (when a tab has no id) creates
an entry whose key parses to `NaN` and can never match any tab id, so such
writes are modelled as no-ops.
-/

set_option maxHeartbeats 1000000

/-- Association-map lookup: first entry with the given key (JS object read). -/
def lookupA {κ : Type} [BEq κ] : List (κ × Int) → κ → Option Int
  | [], _ => none
  | kv :: rest, k => if kv.1 == k then some kv.2 else lookupA rest k

/-- Association-map write: update the first entry with the key in place,
append a new entry when the key is absent (JS object assignment). -/
def setA {κ : Type} [BEq κ] : List (κ × Int) → κ → Int → List (κ × Int)
  | [], k, v => [(k, v)]
  | kv :: rest, k, v => if kv.1 == k then (k, v) :: rest else kv :: setA rest k v

@[simp] theorem lookupA_nil {κ : Type} [BEq κ] (k : κ) : lookupA [] k = none := rfl

theorem lookupA_setA_self {κ : Type} [BEq κ] [LawfulBEq κ] (m : List (κ × Int)) (k : κ) (v : Int) :
    lookupA (setA m k v) k = some v := by
  induction m with
  | nil => simp [setA, lookupA]
  | cons kv rest ih =>
    by_cases h : kv.1 = k
    · simp [setA, lookupA, h]
    · simp [setA, lookupA, h, ih]

theorem lookupA_setA_ne {κ : Type} [BEq κ] [LawfulBEq κ] (m : List (κ × Int)) (k k2 : κ)
    (v : Int) (hne : k2 ≠ k) : lookupA (setA m k v) k2 = lookupA m k2 := by
  have hne' : k ≠ k2 := fun hh => hne hh.symm
  induction m with
  | nil => simp [setA, lookupA, hne']
  | cons kv rest ih =>
    obtain ⟨k1, v1⟩ := kv
    by_cases hk : k1 = k
    · simp [setA, lookupA, hk, hne']
    · have hb : (k1 == k) = false := by simpa using hk
      by_cases h4 : k1 = k2
      · simp only [setA, hb, Bool.false_eq_true, if_false, lookupA]
        simp [h4]
      · simp only [setA, hb, Bool.false_eq_true, if_false, lookupA]
        simp [h4, ih]

theorem mem_setA {κ : Type} [BEq κ] [LawfulBEq κ] (m : List (κ × Int)) (k : κ) (v : Int)
    (kv : κ × Int) (h : kv ∈ setA m k v) : kv = (k, v) ∨ kv ∈ m := by
  induction m with
  | nil => simpa [setA] using h
  | cons kv0 rest ih =>
    obtain ⟨k1, v1⟩ := kv0
    by_cases hk : k1 = k
    · simp only [setA, hk, beq_self_eq_true, if_true] at h
      rcases List.mem_cons.mp h with h | h
      · exact Or.inl h
      · exact Or.inr (List.mem_cons_of_mem _ h)
    · have hk' : (k1 == k) = false := by simpa using hk
      simp only [setA, hk', Bool.false_eq_true, if_false] at h
      rcases List.mem_cons.mp h with h | h
      · exact Or.inr (h ▸ List.mem_cons_self _ _)
      · rcases ih h with h | h
        · exact Or.inl h
        · exact Or.inr (List.mem_cons_of_mem _ h)

theorem lookupA_mem {κ : Type} [BEq κ] [LawfulBEq κ] (m : List (κ × Int)) (k : κ) (v : Int)
    (h : lookupA m k = some v) : (k, v) ∈ m := by
  induction m with
  | nil => simp [lookupA] at h
  | cons kv rest ih =>
    obtain ⟨k1, v1⟩ := kv
    by_cases hk : k1 = k
    · simp only [lookupA, hk, beq_self_eq_true, if_true, Option.some.injEq] at h
      subst hk
      subst h
      exact List.mem_cons_self _ _
    · have hk' : (k1 == k) = false := by simpa using hk
      simp only [lookupA, hk', Bool.false_eq_true, if_false] at h
      exact List.mem_cons_of_mem _ (ih h)

/-- The id-keyed timestamp map (`tabTimes`). -/
abbrev Tmap := List (Nat × Int)

/-- The url-keyed timestamp map (`tabTimesByUrl`). -/
abbrev Umap := List (String × Int)

/-- A `chrome.tabs.Tab`, restricted to the fields the engine reads.
`closedAt` is the expando property attached by `wrangleTabs`. -/
structure Tab where
  id : Option Nat
  url : Option String
  title : Option String
  pinned : Bool
  audible : Bool
  groupId : Int
  windowId : Option Nat
  closedAt : Option Int
deriving DecidableEq, Repr

/-- A `chrome.windows.Window`, restricted to the fields the engine reads. -/
structure Window where
  id : Option Nat
  focused : Bool
deriving DecidableEq, Repr

/-- Settings consumed by the engine (read-only config provider).
`allWindowsStrategy` models `minTabsStrategy === "allWindows"`. -/
structure Settings where
  stayOpen : Int
  minTabs : Nat
  allWindowsStrategy : Bool
  lockedIds : List Nat
  whitelist : List String
  filterAudio : Bool
  filterGroupedTabs : Bool
  paused : Bool
  maxTabs : Nat
deriving DecidableEq, Repr

/-- Boolean test that `pre` is a prefix of the second list (character match). -/
def charsPre : List Char → List Char → Bool
  | [], _ => true
  | _ :: _, [] => false
  | a :: as, b :: bs => a == b && charsPre as bs

/-- Substring containment on character lists, `hay.indexOf(needle) !== -1`. -/
def charsContain (needle : List Char) : List Char → Bool
  | [] => charsPre needle []
  | c :: rest => charsPre needle (c :: rest) || charsContain needle rest

/-- JS `url.indexOf(w) !== -1`: substring containment on strings. -/
def strContains (hay needle : String) : Bool :=
  charsContain needle.data hay.data

/-- `getWhitelistMatch` from tabUtil: first whitelist entry contained in the
url as a substring, `null` when the url is missing or nothing matches. -/
def getWhitelistMatch (url : Option String) (whitelist : List String) : Option String :=
  match url with
  | none => none
  | some u => whitelist.find? (fun w => strContains u w)

/-- `isTabLocked` from tabUtil: pinned, whitelisted, locked-by-id,
grouped-when-filtered, or audible-when-filtered. -/
def isTabLocked (tab : Tab) (filterAudio filterGroupedTabs : Bool)
    (lockedIds : List Nat) (whitelist : List String) : Bool :=
  tab.pinned ||
  (getWhitelistMatch tab.url whitelist).isSome ||
  (match tab.id with
   | some i => lockedIds.contains i
   | none => false) ||
  (filterGroupedTabs && tab.groupId > 0) ||
  (tab.audible && filterAudio)

/-- The predicate built by `createShouldTabBeClosedFilter` from the settings. -/
def shouldTabBeClosed (s : Settings) (tab : Tab) : Bool :=
  ! isTabLocked tab s.filterAudio s.filterGroupedTabs s.lockedIds s.whitelist

/-- `getTabsOlderThan` from the background script: ids of entries with
`!time || value < time`.  Note that a falsy (zero) `time` selects every id. -/
def getTabsOlderThan (tabTimes : Tmap) (time : Int) : List Nat :=
  (tabTimes.filter (fun kv => time == 0 || kv.2 < time)).map (·.1)

theorem mem_getTabsOlderThan (tabTimes : Tmap) (time : Int) (i : Nat) :
    i ∈ getTabsOlderThan tabTimes time ↔
      ∃ v, (i, v) ∈ tabTimes ∧ (time = 0 ∨ v < time) := by
  simp only [getTabsOlderThan, List.mem_map, List.mem_filter]
  constructor
  · rintro ⟨⟨k, v⟩, ⟨hmem, hcond⟩, rfl⟩
    refine ⟨v, hmem, ?_⟩
    simpa using hcond
  · rintro ⟨v, hmem, hcond⟩
    refine ⟨(i, v), ⟨hmem, ?_⟩, rfl⟩
    simpa using hcond

/-- The reset loop inside `findTabsToCloseCandidates` and the active/audible
refresh loops: `setTabTimeSilent(String(tab.id), updatedAt)` for each tab.
Writes for id-less tabs land under the key `"undefined"`, which parses to
`NaN` and can never match a tab id, so they are modelled as no-ops. -/
def refreshTabs (m : Tmap) (updatedAt : Int) (tabs : List Tab) : Tmap :=
  tabs.foldl (fun acc t =>
    match t.id with
    | some i => setA acc i updatedAt
    | none => acc) m

/-- The candidate-collection loop at the end of `findTabsToCloseCandidates`:
skip id-less tabs, refresh locked tabs instead of collecting them, push the
rest onto the candidate list. -/
def selectCandidates (lockedIds : List Nat) (updatedAt : Int) :
    List Tab → Tmap → List Tab × Tmap
  | [], m => ([], m)
  | t :: ts, m =>
    match t.id with
    | none => selectCandidates lockedIds updatedAt ts m
    | some i =>
      if lockedIds.contains i then
        selectCandidates lockedIds updatedAt ts (setA m i updatedAt)
      else
        let r := selectCandidates lockedIds updatedAt ts m
        (t :: r.1, r.2)

/-- `tab.id == null || toCut.has(tab.id)` as a predicate. -/
def inCutB (toCut : Nat → Bool) (t : Tab) : Bool :=
  match t.id with
  | none => true
  | some i => toCut i

/-- `findTabsToCloseCandidates` from the background script, the per-group
eviction-candidate computation.  It both returns the candidate list and
updates the timestamp map (floor resets and locked-tab refreshes). -/
def findTabsToCloseCandidates (shouldClose : Tab → Bool) (toCut : Nat → Bool)
    (lockedIds : List Nat) (minTabs : Nat) (updatedAt : Int)
    (m : Tmap) (tabs0 : List Tab) (resetIfNoCandidates : Bool) : List Tab × Tmap :=
  let tabs := tabs0.filter shouldClose
  let tabsToCut := tabs.filter (inCutB toCut)
  if tabs.length ≤ minTabs then
    ([], if resetIfNoCandidates then refreshTabs m updatedAt tabs else m)
  else
    let tabsToCut2 := tabsToCut.take (tabs.length - minTabs)
    if tabsToCut2.length = 0 then ([], m)
    else selectCandidates lockedIds updatedAt tabsToCut2 m

/-- Predicate satisfied by the tabs the selection loop keeps: a non-null id
that is not locked. -/
def keepAsCandidate (lockedIds : List Nat) (t : Tab) : Bool :=
  match t.id with
  | none => false
  | some i => ! lockedIds.contains i

/-- Closed form of the candidate list computed by `findTabsToCloseCandidates`:
the first `group.size - minTabs` eligible tabs in original enumeration order,
minus id-less and locked ones. -/
def candClosed (shouldClose : Tab → Bool) (toCut : Nat → Bool)
    (lockedIds : List Nat) (minTabs : Nat) (tabs0 : List Tab) : List Tab :=
  let tabs := tabs0.filter shouldClose
  if tabs.length ≤ minTabs then []
  else ((tabs.filter (inCutB toCut)).take (tabs.length - minTabs)).filter
        (keepAsCandidate lockedIds)

theorem selectCandidates_fst (lockedIds : List Nat) (updatedAt : Int)
    (ts : List Tab) (m : Tmap) :
    (selectCandidates lockedIds updatedAt ts m).1 = ts.filter (keepAsCandidate lockedIds) := by
  induction ts generalizing m with
  | nil => rfl
  | cons t ts ih =>
    match ht : t.id with
    | none => simp [selectCandidates, ht, List.filter, keepAsCandidate, ih]
    | some i =>
      by_cases hl : i ∈ lockedIds
      · have hb : lockedIds.contains i = true := by simpa using hl
        simp [selectCandidates, ht, hb, hl, List.filter, keepAsCandidate, ih]
      · have hb : lockedIds.contains i = false := by simpa using hl
        simp [selectCandidates, ht, hb, hl, List.filter, keepAsCandidate, ih]

theorem findTabsToCloseCandidates_fst (shouldClose : Tab → Bool) (toCut : Nat → Bool)
    (lockedIds : List Nat) (minTabs : Nat) (updatedAt : Int)
    (m : Tmap) (tabs0 : List Tab) (reset : Bool) :
    (findTabsToCloseCandidates shouldClose toCut lockedIds minTabs updatedAt m tabs0 reset).1 =
      candClosed shouldClose toCut lockedIds minTabs tabs0 := by
  simp only [findTabsToCloseCandidates, candClosed]
  split
  · rfl
  · split
    · next hz =>
        rw [List.length_eq_zero] at hz
        rw [hz]
        rfl
    · exact selectCandidates_fst _ _ _ _

theorem refreshTabs_lookup_of_not_mem (m : Tmap) (u : Int) (ts : List Tab) (i : Nat)
    (h : ∀ t ∈ ts, t.id ≠ some i) :
    lookupA (refreshTabs m u ts) i = lookupA m i := by
  induction ts generalizing m with
  | nil => rfl
  | cons t ts ih =>
    match ht : t.id with
    | none =>
      simp only [refreshTabs, List.foldl_cons, ht]
      exact ih m (fun t' ht' => h t' (List.mem_cons_of_mem _ ht'))
    | some j =>
      have hj : j ≠ i := by
        intro hji
        exact h t (List.mem_cons_self _ _) (by rw [ht, hji])
      simp only [refreshTabs, List.foldl_cons, ht]
      rw [show (List.foldl _ (setA m j u) ts : Tmap) = refreshTabs (setA m j u) u ts from rfl]
      rw [ih (setA m j u) (fun t' ht' => h t' (List.mem_cons_of_mem _ ht'))]
      exact lookupA_setA_ne _ _ _ _ (fun hij => hj hij.symm)

theorem refreshTabs_lookup_of_mem (m : Tmap) (u : Int) (ts : List Tab) (i : Nat)
    (h : ∃ t ∈ ts, t.id = some i) :
    lookupA (refreshTabs m u ts) i = some u := by
  induction ts generalizing m with
  | nil => simp at h
  | cons t ts ih =>
    by_cases htail : ∃ t' ∈ ts, t'.id = some i
    · match ht : t.id with
      | none =>
        simp only [refreshTabs, List.foldl_cons, ht]
        exact ih m htail
      | some j =>
        simp only [refreshTabs, List.foldl_cons, ht]
        exact ih (setA m j u) htail
    · have hthead : t.id = some i := by
        rcases h with ⟨t', ht', hid⟩
        rcases List.mem_cons.mp ht' with rfl | hmem
        · exact hid
        · exact absurd ⟨t', hmem, hid⟩ htail
      simp only [refreshTabs, List.foldl_cons, hthead]
      have hnone : ∀ t' ∈ ts, t'.id ≠ some i := by
        intro t' ht' hid
        exact htail ⟨t', ht', hid⟩
      rw [show (List.foldl _ (setA m i u) ts : Tmap) = refreshTabs (setA m i u) u ts from rfl]
      rw [refreshTabs_lookup_of_not_mem _ _ _ _ hnone]
      exact lookupA_setA_self _ _ _

/-- Claim C1: when a group's filtered size minus `minTabs` is `<= 0`,
`findTabsToCloseCandidates` returns no candidates, and when
`resetIfNoCandidates` is true every tab of the group with a non-null id has
its cached timestamp set to the cycle's `updatedAt`, which is at least the
cycle start time. -/
theorem c1_floor_no_eviction_and_reset (shouldClose : Tab → Bool) (toCut : Nat → Bool)
    (lockedIds : List Nat) (minTabs : Nat) (updatedAt startTime : Int)
    (m : Tmap) (tabs0 : List Tab) (reset : Bool)
    (hfloor : (tabs0.filter shouldClose).length ≤ minTabs)
    (hstart : startTime ≤ updatedAt) :
    (findTabsToCloseCandidates shouldClose toCut lockedIds minTabs updatedAt m tabs0 reset).1
      = [] ∧
    (reset = true → ∀ t ∈ tabs0.filter shouldClose, ∀ i, t.id = some i →
      lookupA
        (findTabsToCloseCandidates shouldClose toCut lockedIds minTabs updatedAt m tabs0 reset).2
        i = some updatedAt ∧ startTime ≤ updatedAt) := by
  constructor
  · simp only [findTabsToCloseCandidates, hfloor, if_true]
  · intro hreset t hmem i hid
    refine ⟨?_, hstart⟩
    simp only [findTabsToCloseCandidates, hfloor, if_true, hreset]
    exact refreshTabs_lookup_of_mem _ _ _ _ ⟨t, hmem, hid⟩

/-- Witness for C1 at a concrete input. -/
theorem c1_floor_no_eviction_and_reset_witness :
    (([⟨some 1, none, none, false, false, 0, some 9, none⟩] : List Tab).filter
       (fun _ => true)).length ≤ 1 ∧ (3 : Int) ≤ 5 ∧
    ((findTabsToCloseCandidates (fun _ => true) (fun _ => true) [] 1 5
        [] [⟨some 1, none, none, false, false, 0, some 9, none⟩] true).1 = [] ∧
     (true = true → ∀ t ∈ ([⟨some 1, none, none, false, false, 0, some 9, none⟩] :
         List Tab).filter (fun _ => true), ∀ i, t.id = some i →
       lookupA (findTabsToCloseCandidates (fun _ => true) (fun _ => true) [] 1 5
          [] [⟨some 1, none, none, false, false, 0, some 9, none⟩] true).2 i
         = some 5 ∧ (3 : Int) ≤ 5)) :=
  ⟨by decide, by decide,
   c1_floor_no_eviction_and_reset (fun _ => true) (fun _ => true) [] 1 5 3
     [] [⟨some 1, none, none, false, false, 0, some 9, none⟩] true
     (by decide) (by decide)⟩

/-- Modelled from the spec: the cached-timestamp sort key used by the spec's
claimed "sorted ascending by cached timestamp" candidate selection. -/
def timeKey (m : Tmap) (t : Tab) : Int :=
  match t.id with
  | some i => (lookupA m i).getD 0
  | none => 0

/-- Modelled from the spec: stable insertion into an ascending-by-timestamp
list (ties keep the earlier-enumerated tab first). -/
def insertByTime (m : Tmap) (t : Tab) : List Tab → List Tab
  | [] => [t]
  | x :: xs => if timeKey m t ≤ timeKey m x then t :: x :: xs else x :: insertByTime m t xs

/-- Modelled from the spec: stable ascending sort by cached timestamp. -/
def sortByTime (m : Tmap) : List Tab → List Tab
  | [] => []
  | t :: ts => insertByTime m t (sortByTime m ts)

/-- Modelled from the spec: "the candidate list equals the first N tabs after
sorting the past-cutoff tabs ascending by cached timestamp (oldest first),
with ties broken by original enumeration order" (N = group.size - minTabs). -/
def candidatesSortedSpec (shouldClose : Tab → Bool) (toCut : Nat → Bool)
    (minTabs : Nat) (m : Tmap) (tabs0 : List Tab) : List Tab :=
  let tabs := tabs0.filter shouldClose
  (sortByTime m (tabs.filter (inCutB toCut))).take (tabs.length - minTabs)

/-- Counterexample to claim C2: with two eligible tabs past the cutoff
(tab 1 cached at 100, tab 2 cached at 50) and `minTabs = 1`, the code keeps
the first tab in enumeration order (tab 1), not the oldest-timestamp tab
(tab 2) that the spec's sorted selection would keep.  No sorting by cached
timestamp happens in `findTabsToCloseCandidates`. -/
theorem c2_counterexample :
    (findTabsToCloseCandidates (fun _ => true) (fun i => i == 1 || i == 2) [] 1 999
        [(1, 100), (2, 50)]
        [⟨some 1, none, none, false, false, 0, some 7, none⟩,
         ⟨some 2, none, none, false, false, 0, some 7, none⟩] false).1 ≠
      candidatesSortedSpec (fun _ => true) (fun i => i == 1 || i == 2) 1
        [(1, 100), (2, 50)]
        [⟨some 1, none, none, false, false, 0, some 7, none⟩,
         ⟨some 2, none, none, false, false, 0, some 7, none⟩] := by
  decide

/-- Claim C2 (amended): when the filtered group size exceeds `minTabs`, the
candidate list is the first `group.size - minTabs` tabs of the past-cutoff
(or id-less) tabs in original enumeration order — no sorting by cached
timestamp — with id-less and locked tabs then dropped. -/
theorem c2_candidates_enumeration_order (shouldClose : Tab → Bool) (toCut : Nat → Bool)
    (lockedIds : List Nat) (minTabs : Nat) (updatedAt : Int)
    (m : Tmap) (tabs0 : List Tab) (reset : Bool)
    (hlen : minTabs < (tabs0.filter shouldClose).length) :
    (findTabsToCloseCandidates shouldClose toCut lockedIds minTabs updatedAt m tabs0 reset).1 =
      (((tabs0.filter shouldClose).filter (inCutB toCut)).take
          ((tabs0.filter shouldClose).length - minTabs)).filter
        (keepAsCandidate lockedIds) := by
  rw [findTabsToCloseCandidates_fst]
  simp only [candClosed, Nat.not_le.mpr hlen, if_false]

/-- Witness for C2 (amended) at a concrete input: three eligible tabs past
the cutoff with `minTabs = 2` keep exactly the first-enumerated tab. -/
theorem c2_candidates_enumeration_order_witness :
    2 < (([⟨some 1, none, none, false, false, 0, some 7, none⟩,
           ⟨some 2, none, none, false, false, 0, some 7, none⟩,
           ⟨some 3, none, none, false, false, 0, some 7, none⟩] : List Tab).filter
          (fun _ => true)).length ∧
    (findTabsToCloseCandidates (fun _ => true) (fun _ => true) [] 2 999 []
        [⟨some 1, none, none, false, false, 0, some 7, none⟩,
         ⟨some 2, none, none, false, false, 0, some 7, none⟩,
         ⟨some 3, none, none, false, false, 0, some 7, none⟩] false).1 =
      (((([⟨some 1, none, none, false, false, 0, some 7, none⟩,
           ⟨some 2, none, none, false, false, 0, some 7, none⟩,
           ⟨some 3, none, none, false, false, 0, some 7, none⟩] : List Tab).filter
             (fun _ => true)).filter (inCutB (fun _ => true))).take
           ((([⟨some 1, none, none, false, false, 0, some 7, none⟩,
               ⟨some 2, none, none, false, false, 0, some 7, none⟩,
               ⟨some 3, none, none, false, false, 0, some 7, none⟩] : List Tab).filter
             (fun _ => true)).length - 2)).filter (keepAsCandidate []) :=
  ⟨by decide,
   c2_candidates_enumeration_order (fun _ => true) (fun _ => true) [] 2 999 []
     [⟨some 1, none, none, false, false, 0, some 7, none⟩,
      ⟨some 2, none, none, false, false, 0, some 7, none⟩,
      ⟨some 3, none, none, false, false, 0, some 7, none⟩] false (by decide)⟩

/-- Counterexample to claim C3: with cutoff `0` (falsy) the code puts every
cached id into `toCut` — including id 1 whose timestamp 5 is not below the
cutoff — rather than cutting nothing. -/
theorem c3_counterexample :
    getTabsOlderThan [(1, 5)] 0 = [1] ∧ ¬ ((5 : Int) < 0) := by
  decide

/-- Claim C3 (amended): `toCut` contains exactly the ids having a cached
entry with timestamp strictly below the cutoff when the cutoff is nonzero;
when the cutoff is falsy (zero) it contains every cached id (the policy
closes everything subject to floors, it is not disabled). -/
theorem c3_toCut_membership (tabTimes : Tmap) (time : Int) (i : Nat) :
    i ∈ getTabsOlderThan tabTimes time ↔
      ∃ v, (i, v) ∈ tabTimes ∧ (time = 0 ∨ v < time) :=
  mem_getTabsOlderThan tabTimes time i

/-- De-duplication strategy for wrangled tabs (`WrangleOption`); any
configured string other than the two match modes behaves like
`withDuplicates`. -/
inductive WrangleOption
  | exactURLMatch
  | hostnameAndTitleMatch
  | withDuplicates
deriving DecidableEq, Repr

/-- The `persist:localStorage` state touched by the wrangler. -/
structure StorageLocalPersistState where
  savedTabs : List Tab
  totalTabsWrangled : Nat
deriving DecidableEq, Repr

/-- `findPositionByURL` from tabUtil: index of the first saved tab with the
same url.  JS `-1` is modelled as `none`; the JS default parameter turns an
`undefined` url into `""`. -/
def findPositionByURL (savedTabs : List Tab) (url : Option String) : Option Nat :=
  savedTabs.findIdx? (fun item => item.url == some (url.getD ""))

/-- `findPositionByHostnameAndTitle` from tabUtil.  The browser's `URL`
parser is not part of this repository, so the hostname extraction is passed
in as the `hostnameOf` oracle. -/
def findPositionByHostnameAndTitle (hostnameOf : String → String)
    (savedTabs : List Tab) (url : Option String) (title : Option String) : Option Nat :=
  savedTabs.findIdx? (fun tab =>
    hostnameOf (tab.url.getD "") == hostnameOf (url.getD "") && tab.title == title)

/-- `getURLPositionFilterByWrangleOption` from tabUtil.  In the source the
returned closure captures the live `savedTabs` array; here the current list
is passed explicitly at each call, matching the array's in-place mutation
during the wrangle loop. -/
def getURLPositionFilterByWrangleOption (hostnameOf : String → String)
    (wrangleOption : WrangleOption) : List Tab → Tab → Option Nat :=
  match wrangleOption with
  | .hostnameAndTitleMatch => fun savedTabs tab =>
      findPositionByHostnameAndTitle hostnameOf savedTabs tab.url tab.title
  | .exactURLMatch => fun savedTabs tab => findPositionByURL savedTabs tab.url
  | .withDuplicates => fun _ _ => none

/-- One iteration of the `wrangleTabs` loop: splice out a de-duplicated
existing entry, prepend the closing tab stamped with `closedAt`, bump the
total counter and record the id for `chrome.tabs.remove`. -/
def wrangleStep (findPos : List Tab → Tab → Option Nat) (now : Int)
    (acc : StorageLocalPersistState × List Nat) (t : Tab) :
    StorageLocalPersistState × List Nat :=
  let saved := match findPos acc.1.savedTabs t with
    | some p => acc.1.savedTabs.eraseIdx p
    | none => acc.1.savedTabs
  (⟨{ t with closedAt := some now } :: saved, acc.1.totalTabsWrangled + 1⟩,
   acc.2 ++ (match t.id with | some i => [i] | none => []))

/-- `wrangleTabs` from tabUtil: returns the updated storage state together
with the tab ids passed to `chrome.tabs.remove`.  The final trim models the
source's two `splice` calls, which leave exactly the first `maxTabs`
entries. -/
def wrangleTabs (findPos : List Tab → Tab → Option Nat) (maxTabs : Nat) (now : Int)
    (storageLocalPersist : StorageLocalPersistState) (tabs : List Tab) :
    StorageLocalPersistState × List Nat :=
  if tabs.length = 0 then (storageLocalPersist, [])
  else
    let r := tabs.foldl (wrangleStep findPos now) (storageLocalPersist, [])
    if 0 < r.1.savedTabs.length - maxTabs then
      (⟨r.1.savedTabs.take maxTabs, r.1.totalTabsWrangled⟩, r.2)
    else r

/-- Claim C7: when a wrangle call leaves the archive with `maxTabs + k`
entries (`k > 0`), the stored archive is trimmed to exactly the first
`maxTabs` entries (the newest-first prefix); when the pre-trim archive is
ordered newest-first by `closedAt`, every kept entry closed no earlier than
every trimmed (tail) entry. -/
theorem c7_archive_trim (findPos : List Tab → Tab → Option Nat) (maxTabs k : Nat)
    (now : Int) (st : StorageLocalPersistState) (tabs : List Tab)
    (hne : tabs ≠ [])
    (hlen : (tabs.foldl (wrangleStep findPos now) (st, [])).1.savedTabs.length = maxTabs + k)
    (hk : 0 < k) :
    (wrangleTabs findPos maxTabs now st tabs).1.savedTabs =
      ((tabs.foldl (wrangleStep findPos now) (st, [])).1.savedTabs.take maxTabs) ∧
    (wrangleTabs findPos maxTabs now st tabs).1.savedTabs.length = maxTabs ∧
    (List.Pairwise (fun a b => b.closedAt.getD 0 ≤ a.closedAt.getD 0)
        (tabs.foldl (wrangleStep findPos now) (st, [])).1.savedTabs →
      ∀ a ∈ (wrangleTabs findPos maxTabs now st tabs).1.savedTabs,
      ∀ b ∈ (tabs.foldl (wrangleStep findPos now) (st, [])).1.savedTabs.drop maxTabs,
        b.closedAt.getD 0 ≤ a.closedAt.getD 0) := by
  have hlen0 : ¬ tabs.length = 0 := by
    intro h
    exact hne (List.length_eq_zero.mp h)
  have htrim : 0 <
      (tabs.foldl (wrangleStep findPos now) (st, [])).1.savedTabs.length - maxTabs := by
    rw [hlen]
    omega
  have hres : (wrangleTabs findPos maxTabs now st tabs).1.savedTabs =
      ((tabs.foldl (wrangleStep findPos now) (st, [])).1.savedTabs.take maxTabs) := by
    simp only [wrangleTabs, hlen0, if_false, htrim, if_true]
  refine ⟨hres, ?_, ?_⟩
  · rw [hres, List.length_take, hlen]
    omega
  · intro hsorted a ha b hb
    rw [← List.take_append_drop maxTabs
      ((tabs.foldl (wrangleStep findPos now) (st, [])).1.savedTabs)] at hsorted
    have hcross := (List.pairwise_append.mp hsorted).2.2
    rw [hres] at ha
    exact hcross a ha b hb

/-- Witness for C7 at a concrete input: archive of two entries plus one
wrangled tab, `maxTabs = 2`, trims the oldest (tail) entry. -/
theorem c7_archive_trim_witness :
    (([⟨some 5, none, none, false, false, 0, some 7, none⟩] : List Tab) ≠ []) ∧
    (([⟨some 5, none, none, false, false, 0, some 7, none⟩] : List Tab).foldl
        (wrangleStep (fun _ _ => none) 10)
        (⟨[⟨none, none, none, false, false, 0, none, some 9⟩,
           ⟨none, none, none, false, false, 0, none, some 8⟩], 4⟩, [])).1.savedTabs.length
      = 2 + 1 ∧ 0 < 1 ∧
    (wrangleTabs (fun _ _ => none) 2 10
        ⟨[⟨none, none, none, false, false, 0, none, some 9⟩,
          ⟨none, none, none, false, false, 0, none, some 8⟩], 4⟩
        [⟨some 5, none, none, false, false, 0, some 7, none⟩]).1.savedTabs =
      ((([⟨some 5, none, none, false, false, 0, some 7, none⟩] : List Tab).foldl
        (wrangleStep (fun _ _ => none) 10)
        (⟨[⟨none, none, none, false, false, 0, none, some 9⟩,
           ⟨none, none, none, false, false, 0, none, some 8⟩], 4⟩, [])).1.savedTabs.take 2) :=
  ⟨by decide, by decide, by decide,
   (c7_archive_trim (fun _ _ => none) 2 1 10
      ⟨[⟨none, none, none, false, false, 0, none, some 9⟩,
        ⟨none, none, none, false, false, 0, none, some 8⟩], 4⟩
      [⟨some 5, none, none, false, false, 0, some 7, none⟩]
      (by decide) (by decide) (by decide)).1⟩

/-- Claim C10: wrangling an empty tab list is a no-op — the storage state is
returned unchanged in every field and no tab removal is requested. -/
theorem c10_wrangle_empty_noop (findPos : List Tab → Tab → Option Nat)
    (maxTabs : Nat) (now : Int) (storageLocalPersist : StorageLocalPersistState) :
    wrangleTabs findPos maxTabs now storageLocalPersist [] = (storageLocalPersist, []) :=
  rfl

/-- The reconciled timestamp the startup migration computes for a live tab:
keep the id-keyed entry when present, else adopt the url-keyed entry when
the tab has a truthy url with an entry, else start a fresh countdown at
`now`. -/
def migratedTime (tabTimes : Tmap) (tabTimesByUrl : Umap) (now : Int) (t : Tab) : Int :=
  match t.id with
  | none => now
  | some i =>
    match lookupA tabTimes i with
    | some v => v
    | none =>
      match t.url with
      | some u =>
        if u ≠ "" then
          match lookupA tabTimesByUrl u with
          | some uv => uv
          | none => now
        else now
      | none => now

/-- One iteration of the startup migration loop: skip id-less tabs, write
the reconciled timestamp for the rest. -/
def migrateStep (tabTimes : Tmap) (tabTimesByUrl : Umap) (now : Int)
    (next : Tmap) (t : Tab) : Tmap :=
  match t.id with
  | none => next
  | some i => setA next i (migratedTime tabTimes tabTimesByUrl now t)

/-- The startup migration from the background script's `startup`: build
`nextTabTimes` for the live tab snapshot from the durable id-map and
url-map. -/
def migrateTabTimes (tabTimes : Tmap) (tabTimesByUrl : Umap)
    (allTabs : List Tab) (now : Int) : Tmap :=
  allTabs.foldl (migrateStep tabTimes tabTimesByUrl now) []

theorem migrate_go_not_mem (tabTimes : Tmap) (tabTimesByUrl : Umap) (now : Int)
    (ts : List Tab) (acc : Tmap) (i : Nat) (h : ∀ t ∈ ts, t.id ≠ some i) :
    lookupA (ts.foldl (migrateStep tabTimes tabTimesByUrl now) acc) i = lookupA acc i := by
  induction ts generalizing acc with
  | nil => rfl
  | cons t ts ih =>
    match ht : t.id with
    | none =>
      simp only [List.foldl_cons, migrateStep, ht]
      exact ih _ (fun t' ht' => h t' (List.mem_cons_of_mem _ ht'))
    | some j =>
      have hj : j ≠ i := by
        intro hji
        exact h t (List.mem_cons_self _ _) (by rw [ht, hji])
      simp only [List.foldl_cons, migrateStep, ht]
      rw [ih _ (fun t' ht' => h t' (List.mem_cons_of_mem _ ht'))]
      exact lookupA_setA_ne _ _ _ _ (fun hij => hj hij.symm)

theorem migrate_go_mem (tabTimes : Tmap) (tabTimesByUrl : Umap) (now : Int)
    (ts : List Tab) (acc : Tmap) (t : Tab) (i : Nat)
    (hnodup : (ts.filterMap (·.id)).Nodup) (hmem : t ∈ ts) (hid : t.id = some i) :
    lookupA (ts.foldl (migrateStep tabTimes tabTimesByUrl now) acc) i =
      some (migratedTime tabTimes tabTimesByUrl now t) := by
  induction ts generalizing acc with
  | nil => simp at hmem
  | cons t0 ts ih =>
    match ht0 : t0.id with
    | none =>
      have hmem' : t ∈ ts := by
        rcases List.mem_cons.mp hmem with rfl | hmem'
        · rw [ht0] at hid; exact absurd hid (by simp)
        · exact hmem'
      have hnodup' : (ts.filterMap (·.id)).Nodup := by
        rw [List.filterMap_cons, ht0] at hnodup
        exact hnodup
      simp only [List.foldl_cons, migrateStep, ht0]
      exact ih _ hnodup' hmem'
    | some j =>
      rw [List.filterMap_cons, ht0] at hnodup
      have hj_notin : j ∉ ts.filterMap (·.id) := (List.nodup_cons.mp hnodup).1
      have hnodup' : (ts.filterMap (·.id)).Nodup := (List.nodup_cons.mp hnodup).2
      rcases List.mem_cons.mp hmem with rfl | hmem'
      · rw [ht0] at hid
        injection hid with hji
        subst hji
        have hnone : ∀ t' ∈ ts, t'.id ≠ some j := by
          intro t' ht' hid'
          exact hj_notin (List.mem_filterMap.mpr ⟨t', ht', hid'⟩)
        simp only [List.foldl_cons, migrateStep, ht0]
        rw [migrate_go_not_mem _ _ _ _ _ _ hnone]
        exact lookupA_setA_self _ _ _
      · have hji : j ≠ i := by
          intro hji
          subst hji
          exact hj_notin (List.mem_filterMap.mpr ⟨t, hmem', hid⟩)
        simp only [List.foldl_cons, migrateStep, ht0]
        exact ih _ hnodup' hmem'

/-- Observable steps of `startup`, in execution order. -/
inductive StartupEvent
  | settingsInit
  | setPausedIcon (paused : Bool)
  | updateClosedCount
  | purgeSavedTabs
  | initCache (tabTimes : Tmap) (tabTimesByUrl : Umap)
  | forceSync (tabTimes : Tmap) (tabTimesByUrl : Umap)
  | markStartupComplete
  | scheduleCheck
deriving DecidableEq, Repr

/-- The `startup` sequence of the alarm-based background script: settings
load, icon update, badge update, optional purge, then (under the
`local.tabTimes` lock) migration with cache init and force-sync, then
setting `startupComplete`, then scheduling the first check. -/
def startupEvents (tabTimes : Tmap) (tabTimesByUrl : Umap) (allTabs : List Tab)
    (now : Int) (paused purge : Bool) : List StartupEvent :=
  [.settingsInit, .setPausedIcon paused, .updateClosedCount] ++
  (if purge then [.purgeSavedTabs] else []) ++
  [.initCache (migrateTabTimes tabTimes tabTimesByUrl allTabs now) tabTimesByUrl,
   .forceSync (migrateTabTimes tabTimes tabTimesByUrl allTabs now) tabTimesByUrl,
   .markStartupComplete,
   .scheduleCheck]

/-- Claim C5: for every live tab with a non-null id the startup migration
yields the durable id-map's timestamp when that id has an entry, else the
url-map's timestamp when the tab's truthy url has an entry, else the run's
`now`; and the reconciled map initializes the cache (and is force-synced)
strictly before `startupComplete` is set. -/
theorem c5_startup_migration (tabTimes : Tmap) (tabTimesByUrl : Umap)
    (allTabs : List Tab) (now : Int) (paused purge : Bool) (t : Tab) (i : Nat)
    (hnodup : (allTabs.filterMap (·.id)).Nodup) (hmem : t ∈ allTabs)
    (hid : t.id = some i) :
    lookupA (migrateTabTimes tabTimes tabTimesByUrl allTabs now) i =
      some (migratedTime tabTimes tabTimesByUrl now t) ∧
    (∃ j k l : Nat, j < l ∧ k < l ∧
      (startupEvents tabTimes tabTimesByUrl allTabs now paused purge)[j]? =
        some (StartupEvent.initCache
          (migrateTabTimes tabTimes tabTimesByUrl allTabs now) tabTimesByUrl) ∧
      (startupEvents tabTimes tabTimesByUrl allTabs now paused purge)[k]? =
        some (StartupEvent.forceSync
          (migrateTabTimes tabTimes tabTimesByUrl allTabs now) tabTimesByUrl) ∧
      (startupEvents tabTimes tabTimesByUrl allTabs now paused purge)[l]? =
        some StartupEvent.markStartupComplete) := by
  constructor
  · exact migrate_go_mem tabTimes tabTimesByUrl now allTabs [] t i hnodup hmem hid
  · cases purge
    · exact ⟨3, 4, 5, by omega, by omega, rfl, rfl, rfl⟩
    · exact ⟨4, 5, 6, by omega, by omega, rfl, rfl, rfl⟩

/-- Witness for C5 at a concrete input: a restarted tab (id 3 absent from
the id-map, url present in the url-map) adopts the url-map timestamp 42. -/
theorem c5_startup_migration_witness :
    ((([⟨some 3, some "x", none, false, false, 0, some 1, none⟩] : List Tab).filterMap
        (·.id)).Nodup) ∧
    (⟨some 3, some "x", none, false, false, 0, some 1, none⟩ : Tab) ∈
      ([⟨some 3, some "x", none, false, false, 0, some 1, none⟩] : List Tab) ∧
    lookupA (migrateTabTimes [] [("x", 42)]
        [⟨some 3, some "x", none, false, false, 0, some 1, none⟩] 100) 3 =
      some (migratedTime [] [("x", 42)] 100
        ⟨some 3, some "x", none, false, false, 0, some 1, none⟩) :=
  ⟨by decide, by decide,
   (c5_startup_migration [] [("x", 42)]
      [⟨some 3, some "x", none, false, false, 0, some 1, none⟩] 100 false false
      ⟨some 3, some "x", none, false, false, 0, some 1, none⟩ 3
      (by decide) (by decide) (by decide)).1⟩

/-- The in-memory cache pair (`tabTimes`, `tabTimesByUrl`). -/
structure CacheState where
  tabTimes : Tmap
  tabTimesByUrl : Umap
deriving DecidableEq, Repr

/-- One step of the end-of-cycle recompute loop (alarm-based variant):
carry the cached time forward (`tabTimes[String(tab.id)] || updatedAt`),
write it back by id, mirror it by url (a plain overwrite: the
last-enumerated tab with a given url wins), and record the url as alive. -/
def recomputeStep (updatedAt : Int) (acc : Tmap × Umap × List String) (t : Tab) :
    Tmap × Umap × List String :=
  match t.id with
  | none => acc
  | some i =>
    let time := match lookupA acc.1 i with
      | some v => if v = 0 then updatedAt else v
      | none => updatedAt
    let m := setA acc.1 i time
    match t.url with
    | some u =>
      if u ≠ "" then (m, setA acc.2.1 u time, u :: acc.2.2)
      else (m, acc.2.1, acc.2.2)
    | none => (m, acc.2.1, acc.2.2)

/-- One window of the per-window candidate pass: a window with a null id is
skipped outright; otherwise `findTabsToCloseCandidates` runs on the tabs
grouped under that window id, threading the timestamp map. -/
def windowStep (s : Settings) (toCut : Nat → Bool) (updatedAt : Int) (allTabs : List Tab)
    (acc : List Tab × Tmap) (w : Window) : List Tab × Tmap :=
  match w.id with
  | none => acc
  | some wid =>
    let r := findTabsToCloseCandidates (shouldTabBeClosed s) toCut s.lockedIds s.minTabs
      updatedAt acc.2 (allTabs.filter (fun t => t.windowId == some wid)) w.focused
    (acc.1 ++ r.1, r.2)

/-- The body of the `checkToClose` critical section (alarm-based variant):
compute `toCut` from the cache, refresh active tabs (and audible tabs when
`filterAudio`), select per-group eviction candidates, prune dead ids from
the id-map, recompute both maps from the live snapshot and prune the
url-map to alive urls.  Returns the candidate list and the synced cache. -/
def runCycleLocked (s : Settings) (allTabs : List Tab) (windows : List Window)
    (activeTabs : List Tab) (cutOff updatedAt : Int) (st : CacheState) :
    List Tab × CacheState :=
  let toCut : Nat → Bool := fun i => (getTabsOlderThan st.tabTimes cutOff).contains i
  let m1 := refreshTabs st.tabTimes updatedAt activeTabs
  let m2 := if s.filterAudio then refreshTabs m1 updatedAt (allTabs.filter (·.audible)) else m1
  let cm :=
    if s.allWindowsStrategy then
      findTabsToCloseCandidates (shouldTabBeClosed s) toCut s.lockedIds s.minTabs updatedAt m2
        allTabs false
    else windows.foldl (windowStep s toCut updatedAt allTabs) ([], m2)
  let m3 := cm.2.filter (fun kv => allTabs.any (fun t => t.id == some kv.1))
  let r := allTabs.foldl (recomputeStep updatedAt) (m3, st.tabTimesByUrl, [])
  (cm.1, ⟨r.1, r.2.1.filter (fun kv => r.2.2.contains kv.1)⟩)

/-- Closed form of the candidate list a cycle returns, given the `toCut`
predicate. -/
def cycleCandidates (s : Settings) (toCut : Nat → Bool) (allTabs : List Tab)
    (windows : List Window) : List Tab :=
  if s.allWindowsStrategy then
    candClosed (shouldTabBeClosed s) toCut s.lockedIds s.minTabs allTabs
  else
    windows.flatMap (fun w =>
      match w.id with
      | none => []
      | some wid =>
        candClosed (shouldTabBeClosed s) toCut s.lockedIds s.minTabs
          (allTabs.filter (fun t => t.windowId == some wid)))

theorem windows_foldl_fst (s : Settings) (toCut : Nat → Bool) (updatedAt : Int)
    (allTabs : List Tab) (windows : List Window) (acc : List Tab × Tmap) :
    (windows.foldl (windowStep s toCut updatedAt allTabs) acc).1 =
      acc.1 ++ windows.flatMap (fun w =>
        match w.id with
        | none => []
        | some wid =>
          candClosed (shouldTabBeClosed s) toCut s.lockedIds s.minTabs
            (allTabs.filter (fun t => t.windowId == some wid))) := by
  induction windows generalizing acc with
  | nil => simp
  | cons w ws ih =>
    match hw : w.id with
    | none =>
      simp only [List.foldl_cons, windowStep, hw, List.flatMap_cons]
      rw [ih]
      simp
    | some wid =>
      simp only [List.foldl_cons, windowStep, hw, List.flatMap_cons]
      rw [ih]
      rw [findTabsToCloseCandidates_fst]
      simp [List.append_assoc]

theorem runCycleLocked_fst (s : Settings) (allTabs : List Tab) (windows : List Window)
    (activeTabs : List Tab) (cutOff updatedAt : Int) (st : CacheState) :
    (runCycleLocked s allTabs windows activeTabs cutOff updatedAt st).1 =
      cycleCandidates s (fun i => (getTabsOlderThan st.tabTimes cutOff).contains i)
        allTabs windows := by
  simp only [runCycleLocked, cycleCandidates]
  by_cases hs : s.allWindowsStrategy
  · simp only [hs, if_true]
    exact findTabsToCloseCandidates_fst _ _ _ _ _ _ _ _
  · simp only [hs, Bool.false_eq_true, if_false]
    rw [windows_foldl_fst]
    simp

theorem mem_candClosed_keep (shouldClose : Tab → Bool) (toCut : Nat → Bool)
    (lockedIds : List Nat) (minTabs : Nat) (tabs0 : List Tab) (t : Tab)
    (h : t ∈ candClosed shouldClose toCut lockedIds minTabs tabs0) :
    keepAsCandidate lockedIds t = true := by
  simp only [candClosed] at h
  split at h
  · simp at h
  · exact (List.mem_filter.mp h).2

theorem selectCandidates_snd_not_mem (lockedIds : List Nat) (u : Int)
    (ts : List Tab) (m : Tmap) (i : Nat) (h : ∀ t ∈ ts, t.id ≠ some i) :
    lookupA (selectCandidates lockedIds u ts m).2 i = lookupA m i := by
  induction ts generalizing m with
  | nil => rfl
  | cons t ts ih =>
    match ht : t.id with
    | none =>
      simp only [selectCandidates, ht]
      exact ih _ (fun t' ht' => h t' (List.mem_cons_of_mem _ ht'))
    | some j =>
      have hj : j ≠ i := by
        intro hji
        exact h t (List.mem_cons_self _ _) (by rw [ht, hji])
      by_cases hl : lockedIds.contains j
      · simp only [selectCandidates, ht, hl, if_true]
        rw [ih _ (fun t' ht' => h t' (List.mem_cons_of_mem _ ht'))]
        exact lookupA_setA_ne _ _ _ _ (fun hij => hj hij.symm)
      · simp only [selectCandidates, ht, hl, Bool.false_eq_true, if_false]
        exact ih _ (fun t' ht' => h t' (List.mem_cons_of_mem _ ht'))

theorem selectCandidates_snd_locked (lockedIds : List Nat) (u : Int)
    (ts : List Tab) (m : Tmap) (i : Nat)
    (hlock : lockedIds.contains i = true) (h : ∃ t ∈ ts, t.id = some i) :
    lookupA (selectCandidates lockedIds u ts m).2 i = some u := by
  induction ts generalizing m with
  | nil => simp at h
  | cons t ts ih =>
    by_cases htail : ∃ t' ∈ ts, t'.id = some i
    · match ht : t.id with
      | none =>
        simp only [selectCandidates, ht]
        exact ih _ htail
      | some j =>
        by_cases hl : lockedIds.contains j
        · simp only [selectCandidates, ht, hl, if_true]
          exact ih _ htail
        · simp only [selectCandidates, ht, hl, Bool.false_eq_true, if_false]
          exact ih _ htail
    · have hthead : t.id = some i := by
        rcases h with ⟨t', ht', hid⟩
        rcases List.mem_cons.mp ht' with rfl | hmem
        · exact hid
        · exact absurd ⟨t', hmem, hid⟩ htail
      have hnone : ∀ t' ∈ ts, t'.id ≠ some i := by
        intro t' ht' hid'
        exact htail ⟨t', ht', hid'⟩
      simp only [selectCandidates, hthead, hlock, if_true]
      rw [selectCandidates_snd_not_mem _ _ _ _ _ hnone]
      exact lookupA_setA_self _ _ _

/-- Claim C4: a tab whose id is in the configured `lockedIds` never appears
in a cycle's returned candidate list; and inside
`findTabsToCloseCandidates`, a locked tab among the trimmed candidates
(past cutoff, within the group's eviction budget) has its cached timestamp
refreshed to the cycle's `updatedAt` instead of being evicted. -/
theorem c4_locked_never_evicted_refreshed (s : Settings) (allTabs : List Tab)
    (windows : List Window) (activeTabs : List Tab) (cutOff updatedAt : Int)
    (st : CacheState) (t : Tab) (i : Nat)
    (shouldClose : Tab → Bool) (toCut : Nat → Bool) (lockedIds : List Nat)
    (minTabs : Nat) (u2 : Int) (m : Tmap) (tabs0 : List Tab) (reset : Bool)
    (t2 : Tab) (i2 : Nat)
    (hid : t.id = some i) (hlock : s.lockedIds.contains i = true)
    (hid2 : t2.id = some i2) (hlock2 : lockedIds.contains i2 = true)
    (hlen : minTabs < (tabs0.filter shouldClose).length)
    (ht2 : t2 ∈ ((tabs0.filter shouldClose).filter (inCutB toCut)).take
      ((tabs0.filter shouldClose).length - minTabs)) :
    t ∉ (runCycleLocked s allTabs windows activeTabs cutOff updatedAt st).1 ∧
    lookupA
      (findTabsToCloseCandidates shouldClose toCut lockedIds minTabs u2 m tabs0 reset).2 i2
      = some u2 ∧
    t2 ∉ (findTabsToCloseCandidates shouldClose toCut lockedIds minTabs u2 m tabs0 reset).1 := by
  have hnotfloor : ¬ ((tabs0.filter shouldClose).length ≤ minTabs) := Nat.not_le.mpr hlen
  have hz : ¬ ((((tabs0.filter shouldClose).filter (inCutB toCut)).take
      ((tabs0.filter shouldClose).length - minTabs)).length = 0) := by
    intro h0
    rw [List.length_eq_zero] at h0
    rw [h0] at ht2
    simp at ht2
  refine ⟨?_, ?_, ?_⟩
  · intro hmem
    rw [runCycleLocked_fst] at hmem
    have hkeep : keepAsCandidate s.lockedIds t = true := by
      simp only [cycleCandidates] at hmem
      split at hmem
      · exact mem_candClosed_keep _ _ _ _ _ _ hmem
      · rcases List.mem_flatMap.mp hmem with ⟨w, _, hmem2⟩
        match hwid : w.id with
        | none => rw [hwid] at hmem2; simp at hmem2
        | some wid =>
          rw [hwid] at hmem2
          exact mem_candClosed_keep _ _ _ _ _ _ hmem2
    simp only [keepAsCandidate, hid] at hkeep
    rw [hlock] at hkeep
    simp at hkeep
  · simp only [findTabsToCloseCandidates]
    rw [if_neg hnotfloor, if_neg hz]
    exact selectCandidates_snd_locked _ _ _ _ _ hlock2 ⟨t2, ht2, hid2⟩
  · intro hmem
    rw [findTabsToCloseCandidates_fst] at hmem
    have hkeep := mem_candClosed_keep _ _ _ _ _ _ hmem
    simp only [keepAsCandidate, hid2] at hkeep
    rw [hlock2] at hkeep
    simp at hkeep

/-- Witness for C4 at a concrete input: locked tab id 7 is past the cutoff
and inside the eviction budget, yet is refreshed to `updatedAt = 50` and
never returned as a candidate. -/
theorem c4_locked_never_evicted_refreshed_witness :
    ((⟨some 7, none, none, false, false, 0, some 1, none⟩ : Tab).id = some 7) ∧
    (([7] : List Nat).contains 7 = true) ∧
    (1 < (([⟨some 7, none, none, false, false, 0, some 1, none⟩,
            ⟨some 1, none, none, false, false, 0, some 1, none⟩,
            ⟨some 2, none, none, false, false, 0, some 1, none⟩] : List Tab).filter
          (fun _ => true)).length) ∧
    ((⟨some 7, none, none, false, false, 0, some 1, none⟩ : Tab) ∉
      (runCycleLocked ⟨1000, 0, true, [7], [], false, false, false, 5⟩
        [⟨some 7, none, none, false, false, 0, some 1, none⟩] [] [] 10 50
        ⟨[], []⟩).1) ∧
    lookupA (findTabsToCloseCandidates (fun _ => true) (fun _ => true) [7] 1 50 []
        [⟨some 7, none, none, false, false, 0, some 1, none⟩,
         ⟨some 1, none, none, false, false, 0, some 1, none⟩,
         ⟨some 2, none, none, false, false, 0, some 1, none⟩] false).2 7 = some 50 ∧
    ((⟨some 7, none, none, false, false, 0, some 1, none⟩ : Tab) ∉
      (findTabsToCloseCandidates (fun _ => true) (fun _ => true) [7] 1 50 []
        [⟨some 7, none, none, false, false, 0, some 1, none⟩,
         ⟨some 1, none, none, false, false, 0, some 1, none⟩,
         ⟨some 2, none, none, false, false, 0, some 1, none⟩] false).1) :=
  ⟨by decide, by decide, by decide,
   c4_locked_never_evicted_refreshed ⟨1000, 0, true, [7], [], false, false, false, 5⟩
     [⟨some 7, none, none, false, false, 0, some 1, none⟩] [] [] 10 50 ⟨[], []⟩
     ⟨some 7, none, none, false, false, 0, some 1, none⟩ 7
     (fun _ => true) (fun _ => true) [7] 1 50 []
     [⟨some 7, none, none, false, false, 0, some 1, none⟩,
      ⟨some 1, none, none, false, false, 0, some 1, none⟩,
      ⟨some 2, none, none, false, false, 0, some 1, none⟩] false
     ⟨some 7, none, none, false, false, 0, some 1, none⟩ 7
     (by decide) (by decide) (by decide) (by decide) (by decide) (by decide)⟩

/-- The carried-forward time for id `i` in the timeout-based variant's
recompute: `tabTimes[tab.id] || updatedAt` against the pre-existing map. -/
def carriedTimeAt (tabTimes : Tmap) (updatedAt : Int) (i : Nat) : Int :=
  match lookupA tabTimes i with
  | some v => if v = 0 then updatedAt else v
  | none => updatedAt

/-- The carried-forward time of a tab (fresh `updatedAt` when id-less). -/
def carriedTime (tabTimes : Tmap) (updatedAt : Int) (t : Tab) : Int :=
  match t.id with
  | none => updatedAt
  | some i => carriedTimeAt tabTimes updatedAt i

/-- One step of the timeout-based variant's end-of-cycle recompute: write
the carried-forward time into the fresh id-map and keep the minimum per url
on collision (`existing == null || time < existing`). -/
def recomputeStepV1 (tabTimes : Tmap) (updatedAt : Int)
    (acc : Tmap × Umap) (t : Tab) : Tmap × Umap :=
  match t.id with
  | none => acc
  | some i =>
    let time := carriedTimeAt tabTimes updatedAt i
    let m := setA acc.1 i time
    match t.url with
    | some u =>
      if u ≠ "" then
        match lookupA acc.2 u with
        | none => (m, setA acc.2 u time)
        | some existing =>
          if time < existing then (m, setA acc.2 u time) else (m, acc.2)
      else (m, acc.2)
    | none => (m, acc.2)

/-- The timeout-based variant's recompute loop: builds fresh `nextTabTimes`
and `nextTabTimesByUrl` from the live snapshot, keeping the oldest
timestamp per duplicated url. -/
def recomputeNextTabTimes (tabTimes : Tmap) (allTabs : List Tab) (updatedAt : Int) :
    Tmap × Umap :=
  allTabs.foldl (recomputeStepV1 tabTimes updatedAt) ([], [])

theorem recomputeStepV1_url_lookup (tabTimes : Tmap) (updatedAt : Int)
    (acc : Tmap × Umap) (t : Tab) (u : String) :
    lookupA (recomputeStepV1 tabTimes updatedAt acc t).2 u = lookupA acc.2 u ∨
    (∃ i, t.id = some i ∧ t.url = some u ∧ u ≠ "" ∧
      lookupA (recomputeStepV1 tabTimes updatedAt acc t).2 u =
        some (carriedTimeAt tabTimes updatedAt i) ∧
      (∀ w, lookupA acc.2 u = some w → carriedTimeAt tabTimes updatedAt i < w)) := by
  match hidt : t.id with
  | none => left; simp [recomputeStepV1, hidt]
  | some i =>
    match hurlt : t.url with
    | none => left; simp [recomputeStepV1, hidt, hurlt]
    | some u2 =>
      by_cases hu2 : u2 = ""
      · left
        simp [recomputeStepV1, hidt, hurlt, hu2]
      · by_cases huu : u2 = u
        · subst huu
          cases hex : lookupA acc.2 u2 with
          | none =>
            right
            refine ⟨i, rfl, rfl, hu2, ?_, ?_⟩
            · simp only [recomputeStepV1, hidt, hurlt, hu2, ne_eq, not_false_iff, if_true, hex]
              exact lookupA_setA_self _ _ _
            · intro w hw
              exact absurd hw (by simp)
          | some ex =>
            by_cases hlt : carriedTimeAt tabTimes updatedAt i < ex
            · right
              refine ⟨i, rfl, rfl, hu2, ?_, ?_⟩
              · simp only [recomputeStepV1, hidt, hurlt, hu2, ne_eq, not_false_iff, if_true,
                  hex, hlt, if_true]
                exact lookupA_setA_self _ _ _
              · intro w hw
                injection hw with hw
                rw [← hw]
                exact hlt
            · left
              simp only [recomputeStepV1, hidt, hurlt, hu2, ne_eq, not_false_iff, if_true,
                hex, hlt, if_false]
        · left
          simp only [recomputeStepV1, hidt, hurlt, hu2, ne_eq, not_false_iff, if_true]
          cases hex : lookupA acc.2 u2 with
          | none => exact lookupA_setA_ne _ _ _ _ (fun h => huu h.symm)
          | some ex =>
            by_cases hlt : carriedTimeAt tabTimes updatedAt i < ex
            · simp only [hlt, if_true]
              exact lookupA_setA_ne _ _ _ _ (fun h => huu h.symm)
            · simp only [hlt, if_false]

theorem recomputeV1_url_lowerBound (tabTimes : Tmap) (updatedAt : Int) (u : String)
    (T1 : Int) (ts : List Tab) (acc : Tmap × Umap)
    (hts : ∀ t ∈ ts, ∀ i, t.id = some i → t.url = some u →
      T1 ≤ carriedTimeAt tabTimes updatedAt i)
    (hacc : ∀ w, lookupA acc.2 u = some w → T1 ≤ w) :
    ∀ w, lookupA (ts.foldl (recomputeStepV1 tabTimes updatedAt) acc).2 u = some w →
      T1 ≤ w := by
  induction ts generalizing acc with
  | nil => exact hacc
  | cons t ts ih =>
    rw [List.foldl_cons]
    refine ih _ (fun t' ht' => hts t' (List.mem_cons_of_mem _ ht')) ?_
    rcases recomputeStepV1_url_lookup tabTimes updatedAt acc t u with heq | ⟨i, hid, hurl, _, heq, _⟩
    · rw [heq]; exact hacc
    · rw [heq]
      intro w hw
      injection hw with hw
      rw [← hw]
      exact hts t (List.mem_cons_self _ _) i hid hurl

theorem recomputeV1_url_keep (tabTimes : Tmap) (updatedAt : Int) (u : String)
    (T1 : Int) (ts : List Tab) (acc : Tmap × Umap)
    (hts : ∀ t ∈ ts, ∀ i, t.id = some i → t.url = some u →
      T1 ≤ carriedTimeAt tabTimes updatedAt i)
    (hacc : lookupA acc.2 u = some T1) :
    lookupA (ts.foldl (recomputeStepV1 tabTimes updatedAt) acc).2 u = some T1 := by
  induction ts generalizing acc with
  | nil => exact hacc
  | cons t ts ih =>
    rw [List.foldl_cons]
    refine ih _ (fun t' ht' => hts t' (List.mem_cons_of_mem _ ht')) ?_
    rcases recomputeStepV1_url_lookup tabTimes updatedAt acc t u with heq | ⟨i, hid, hurl, _, _, hlt⟩
    · rw [heq]; exact hacc
    · have h1 := hlt T1 hacc
      have h2 := hts t (List.mem_cons_self _ _) i hid hurl
      omega

/-- Counterexample to claim C6: in the canonical alarm-based cycle, two live
tabs share url `"u"` with cached timestamps `T1 = 5 < T2 = 9`; the persisted
url entry after the recompute is `9` (the last-enumerated tab's time), not
the minimum `5` the claim requires. -/
theorem c6_counterexample :
    lookupA (runCycleLocked ⟨1000, 5, true, [], [], false, false, false, 5⟩
        [⟨some 1, some "u", none, false, false, 0, some 1, none⟩,
         ⟨some 2, some "u", none, false, false, 0, some 1, none⟩] [] [] 1 10
        ⟨[(1, 5), (2, 9)], []⟩).2.tabTimesByUrl "u" = some 9 ∧
      some (9 : Int) ≠ some (5 : Int) := by
  constructor
  · rfl
  · decide

/-- Claim C6 (amended): only the timeout-based variant's recompute keeps the
minimum per url: when a live tab with a truthy url `u` carries time `T1` and
every live tab sharing url `u` carries a time `≥ T1`, the rebuilt url-map
entry for `u` equals `T1`.  The alarm-based variant's recompute instead
keeps the last-enumerated sharer's time (see the counterexample). -/
theorem c6_v1_url_map_keeps_minimum (tabTimes : Tmap) (allTabs : List Tab)
    (updatedAt : Int) (u : String) (t1 : Tab) (i1 : Nat) (T1 : Int)
    (hu : u ≠ "") (hmem : t1 ∈ allTabs) (hid : t1.id = some i1)
    (hurl : t1.url = some u)
    (htime : carriedTimeAt tabTimes updatedAt i1 = T1)
    (hmin : ∀ t ∈ allTabs, ∀ i, t.id = some i → t.url = some u →
      T1 ≤ carriedTimeAt tabTimes updatedAt i) :
    lookupA (recomputeNextTabTimes tabTimes allTabs updatedAt).2 u = some T1 := by
  rcases List.append_of_mem hmem with ⟨pre, post, rfl⟩
  unfold recomputeNextTabTimes
  rw [List.foldl_append, List.foldl_cons]
  have hpre : ∀ t ∈ pre, ∀ i, t.id = some i → t.url = some u →
      T1 ≤ carriedTimeAt tabTimes updatedAt i := by
    intro t ht
    exact hmin t (List.mem_append_left _ ht)
  have hpost : ∀ t ∈ post, ∀ i, t.id = some i → t.url = some u →
      T1 ≤ carriedTimeAt tabTimes updatedAt i := by
    intro t ht
    exact hmin t (List.mem_append_right _ (List.mem_cons_of_mem _ ht))
  set accPre := pre.foldl (recomputeStepV1 tabTimes updatedAt) (([], []) : Tmap × Umap)
    with haccPre
  have hlb : ∀ w, lookupA accPre.2 u = some w → T1 ≤ w := by
    refine recomputeV1_url_lowerBound tabTimes updatedAt u T1 pre ([], []) hpre ?_
    intro w hw
    exact absurd hw (by simp)
  have hstep : lookupA (recomputeStepV1 tabTimes updatedAt accPre t1).2 u = some T1 := by
    simp only [recomputeStepV1, hid, hurl, hu, ne_eq, not_false_iff, if_true]
    cases hex : lookupA accPre.2 u with
    | none =>
      rw [htime]
      exact lookupA_setA_self _ _ _
    | some ex =>
      have hT1ex : T1 ≤ ex := hlb ex hex
      by_cases hlt : carriedTimeAt tabTimes updatedAt i1 < ex
      · simp only [hlt, if_true]
        rw [htime]
        exact lookupA_setA_self _ _ _
      · simp only [hlt, if_false]
        rw [htime] at hlt
        have : ex = T1 := by omega
        rw [hex, this]
  exact recomputeV1_url_keep tabTimes updatedAt u T1 post _ hpost hstep

/-- Witness for C6 (amended) at a concrete input: two tabs share url `"u"`
with carried times 5 and 9; the rebuilt url entry is the minimum, 5. -/
theorem c6_v1_url_map_keeps_minimum_witness :
    ("u" ≠ "") ∧
    lookupA (recomputeNextTabTimes [(1, 5), (2, 9)]
        [⟨some 1, some "u", none, false, false, 0, some 1, none⟩,
         ⟨some 2, some "u", none, false, false, 0, some 1, none⟩] 10).2 "u" = some 5 :=
  ⟨by decide,
   c6_v1_url_map_keeps_minimum [(1, 5), (2, 9)]
     [⟨some 1, some "u", none, false, false, 0, some 1, none⟩,
      ⟨some 2, some "u", none, false, false, 0, some 1, none⟩] 10 "u"
     ⟨some 1, some "u", none, false, false, 0, some 1, none⟩ 1 5
     (by decide) (by decide) (by decide) (by decide) (by decide)
     (by decide)⟩

/-- Externally observable effects of one `checkToClose` invocation. -/
inductive CycleEffect
  | readConfig
  | lockAcquired
  | wrangled (tabs : List Tab)
  | errorLogged
  | overrunWarned
  | scheduled
deriving DecidableEq, Repr

/-- How the `try` body of one `checkToClose` invocation can end: early
return because the extension is paused, normal completion with the
candidate list, or a throw at any point after some prefix of its effects. -/
inductive CycleOutcome
  | paused
  | completed (tabsToClose : List Tab)
  | threw (effectsSoFar : List CycleEffect)
deriving DecidableEq, Repr

/-- Effects of the `try`/`catch` part of `checkToClose`: the paused early
return does no further work, completion wrangles when candidates exist, and
a throw at any point is caught by the top-level `catch` and logged. -/
def checkToCloseBody : CycleOutcome → List CycleEffect
  | .paused => [.readConfig]
  | .completed ts => [.readConfig, .lockAcquired] ++
      (if 0 < ts.length then [.wrangled ts] else [])
  | .threw es => es ++ [.errorLogged]

/-- A full `checkToClose` invocation: the `try`/`catch` effects followed by
the `finally` block, which warns when the cycle overran its budget and then
unconditionally calls `scheduleCheckToClose`. -/
def checkToCloseRun (o : CycleOutcome) (elapsedTime : Int) : List CycleEffect :=
  checkToCloseBody o ++
  (if 5000 < elapsedTime then [.overrunWarned] else []) ++ [.scheduled]

/-- Claim C8: for every invocation outcome — pause, success or a throw at
any point — the `finally` block reschedules the next check, so `scheduled`
occurs in every run's effect trace, and as its final action. -/
theorem c8_always_reschedules (o : CycleOutcome) (elapsedTime : Int) :
    CycleEffect.scheduled ∈ checkToCloseRun o elapsedTime ∧
    (checkToCloseRun o elapsedTime).getLast? = some CycleEffect.scheduled := by
  constructor
  · simp [checkToCloseRun]
  · rw [checkToCloseRun]
    exact List.getLast?_concat _

theorem filter_swap {α : Type} (l : List α) (f g : α → Bool) :
    (l.filter f).filter g = (l.filter g).filter f := by
  rw [List.filter_filter, List.filter_filter]
  apply List.filter_congr
  intro x _
  rw [Bool.and_comm]

theorem length_filter_add_length_filter_not {α : Type} (l : List α) (f : α → Bool) :
    (l.filter f).length + (l.filter (fun x => ! f x)).length = l.length := by
  induction l with
  | nil => rfl
  | cons a l ih =>
    by_cases ha : f a
    · simp [List.filter_cons, ha, ← ih]
      omega
    · simp [List.filter_cons, ha, ← ih]
      omega

theorem count_tail_le {α : Type} [DecidableEq α] (a e : α) (l : List α)
    (h : (a :: l).count e ≤ 1) : l.count e ≤ 1 := by
  by_cases he : e = a
  · subst he
    rw [List.count_cons_self] at h
    omega
  · rw [List.count_cons_of_ne he] at h
    exact h

theorem length_filter_not_mem_of_sublist {α : Type} [DecidableEq α]
    (E l : List α) (hsub : E.Sublist l) (hnodupE : E.Nodup)
    (hcount : ∀ e ∈ E, l.count e ≤ 1) :
    (l.filter (fun t => ! decide (t ∈ E))).length = l.length - E.length := by
  induction hsub with
  | slnil => simp
  | @cons E l a h ih =>
    have ha : a ∉ E := by
      intro haE
      have h1 : 0 < l.count a := List.count_pos_iff.mpr (h.subset haE)
      have h2 := hcount a haE
      rw [List.count_cons_self] at h2
      omega
    have hcount2 : ∀ e ∈ E, l.count e ≤ 1 := fun e he => count_tail_le a e l (hcount e he)
    rw [List.filter_cons]
    simp only [decide_eq_false ha, Bool.not_false, if_true]
    rw [List.length_cons, ih hnodupE hcount2]
    have hElen : E.length ≤ l.length := h.length_le
    simp only [List.length_cons]
    omega
  | @cons₂ E l a h ih =>
    rcases List.nodup_cons.mp hnodupE with ⟨haE, hnodupE2⟩
    have hal : a ∉ l := by
      have h2 := hcount a (List.mem_cons_self _ _)
      rw [List.count_cons_self] at h2
      have h0 : l.count a = 0 := by omega
      exact List.count_eq_zero.mp h0
    have hcount2 : ∀ e ∈ E, l.count e ≤ 1 :=
      fun e he => count_tail_le a e l (hcount e (List.mem_cons_of_mem _ he))
    have hcongr : l.filter (fun t => ! decide (t ∈ a :: E)) =
        l.filter (fun t => ! decide (t ∈ E)) := by
      apply List.filter_congr
      intro x hx
      have hxa : x ≠ a := fun hxa => hal (hxa ▸ hx)
      simp [List.mem_cons, hxa]
    rw [List.filter_cons]
    have hmema : decide (a ∈ a :: E) = true := by simp
    simp only [hmema, Bool.not_true, Bool.false_eq_true, if_false, hcongr,
      ih hnodupE2 hcount2, List.length_cons]
    have hElen : E.length ≤ l.length := h.length_le
    omega

theorem nodup_of_nodup_filterMap_id (l : List Tab)
    (hnodup : (l.filterMap (·.id)).Nodup) (hsome : ∀ t ∈ l, t.id.isSome) :
    l.Nodup := by
  induction l with
  | nil => exact List.nodup_nil
  | cons t l ih =>
    match ht : t.id with
    | none =>
      have := hsome t (List.mem_cons_self _ _)
      rw [ht] at this
      simp at this
    | some i =>
      rw [List.filterMap_cons, ht] at hnodup
      rcases List.nodup_cons.mp hnodup with ⟨hi, hnodup'⟩
      refine List.nodup_cons.mpr ⟨?_, ih hnodup' (fun t' ht' => hsome t' (List.mem_cons_of_mem _ ht'))⟩
      intro htl
      exact hi (List.mem_filterMap.mpr ⟨t, htl, ht⟩)

theorem count_le_one_of_nodup_filterMap_id (l : List Tab) (t : Tab) (i : Nat)
    (hnodup : (l.filterMap (·.id)).Nodup) (hid : t.id = some i) :
    l.count t ≤ 1 := by
  induction l with
  | nil => simp
  | cons t0 l ih =>
    by_cases ht0 : t0 = t
    · subst ht0
      rw [List.count_cons_self]
      rw [List.filterMap_cons, hid] at hnodup
      rcases List.nodup_cons.mp hnodup with ⟨hi, _⟩
      have h0 : t0 ∉ l := by
        intro htl
        exact hi (List.mem_filterMap.mpr ⟨t0, htl, hid⟩)
      rw [List.count_eq_zero.mpr h0]
    · rw [List.count_cons_of_ne (fun h => ht0 h.symm)]
      refine ih ?_
      rw [List.filterMap_cons] at hnodup
      match ht0id : t0.id with
      | none => rw [ht0id] at hnodup; exact hnodup
      | some j => rw [ht0id] at hnodup; exact (List.nodup_cons.mp hnodup).2

theorem mem_candClosed_mem_tabs (shouldClose : Tab → Bool) (toCut : Nat → Bool)
    (lockedIds : List Nat) (minTabs : Nat) (tabs0 : List Tab) (t : Tab)
    (h : t ∈ candClosed shouldClose toCut lockedIds minTabs tabs0) : t ∈ tabs0 := by
  simp only [candClosed] at h
  split at h
  · simp at h
  · have h1 := (List.mem_filter.mp h).1
    have h2 := List.mem_of_mem_take h1
    have h3 := (List.mem_filter.mp h2).1
    exact (List.mem_filter.mp h3).1

theorem refreshTabs_entries (m : Tmap) (u : Int) (ts : List Tab) (kv : Nat × Int)
    (h : kv ∈ refreshTabs m u ts) : kv.2 = u ∨ kv ∈ m := by
  induction ts generalizing m with
  | nil => exact Or.inr h
  | cons t ts ih =>
    match ht : t.id with
    | none =>
      simp only [refreshTabs, List.foldl_cons, ht] at h
      exact ih m h
    | some i =>
      simp only [refreshTabs, List.foldl_cons, ht] at h
      rcases ih (setA m i u) h with h2 | h2
      · exact Or.inl h2
      · rcases mem_setA _ _ _ _ h2 with h3 | h3
        · exact Or.inl (by rw [h3])
        · exact Or.inr h3

theorem selectCandidates_entries (lockedIds : List Nat) (u : Int) (ts : List Tab)
    (m : Tmap) (kv : Nat × Int) (h : kv ∈ (selectCandidates lockedIds u ts m).2) :
    kv.2 = u ∨ kv ∈ m := by
  induction ts generalizing m with
  | nil => exact Or.inr h
  | cons t ts ih =>
    match ht : t.id with
    | none =>
      simp only [selectCandidates, ht] at h
      exact ih m h
    | some i =>
      by_cases hl : lockedIds.contains i
      · simp only [selectCandidates, ht, hl, if_true] at h
        rcases ih (setA m i u) h with h2 | h2
        · exact Or.inl h2
        · rcases mem_setA _ _ _ _ h2 with h3 | h3
          · exact Or.inl (by rw [h3])
          · exact Or.inr h3
      · simp only [selectCandidates, ht, hl, Bool.false_eq_true, if_false] at h
        exact ih m h

theorem findTabsToCloseCandidates_entries (shouldClose : Tab → Bool) (toCut : Nat → Bool)
    (lockedIds : List Nat) (minTabs : Nat) (u : Int) (m : Tmap) (tabs0 : List Tab)
    (reset : Bool) (kv : Nat × Int)
    (h : kv ∈ (findTabsToCloseCandidates shouldClose toCut lockedIds minTabs u m tabs0 reset).2) :
    kv.2 = u ∨ kv ∈ m := by
  simp only [findTabsToCloseCandidates] at h
  split at h
  · by_cases hr : reset
    · rw [if_pos hr] at h
      exact refreshTabs_entries _ _ _ _ h
    · rw [if_neg hr] at h
      exact Or.inr h
  · split at h
    · exact Or.inr h
    · exact selectCandidates_entries _ _ _ _ _ h

theorem windowsFold_entries (s : Settings) (toCut : Nat → Bool) (u : Int)
    (allTabs : List Tab) (windows : List Window) (acc : List Tab × Tmap) (kv : Nat × Int)
    (h : kv ∈ (windows.foldl (windowStep s toCut u allTabs) acc).2) :
    kv.2 = u ∨ kv ∈ acc.2 := by
  induction windows generalizing acc with
  | nil => exact Or.inr h
  | cons w ws ih =>
    match hw : w.id with
    | none =>
      simp only [List.foldl_cons, windowStep, hw] at h
      exact ih acc h
    | some wid =>
      simp only [List.foldl_cons, windowStep, hw] at h
      rcases ih _ h with h2 | h2
      · exact Or.inl h2
      · exact findTabsToCloseCandidates_entries _ _ _ _ _ _ _ _ _ h2

theorem recomputeStep_fst_entries (u : Int) (base : Tmap) (acc : Tmap × Umap × List String)
    (t : Tab) (hacc : ∀ kv ∈ acc.1, kv.2 = u ∨ kv ∈ base) :
    ∀ kv ∈ (recomputeStep u acc t).1, kv.2 = u ∨ kv ∈ base := by
  intro kv h
  match hidt : t.id with
  | none =>
    simp only [recomputeStep, hidt] at h
    exact hacc kv h
  | some i =>
    have hsetA : ∀ time : Int,
        (time = u ∨ (i, time) ∈ base) → kv ∈ setA acc.1 i time → kv.2 = u ∨ kv ∈ base := by
      intro time htime hmem
      rcases mem_setA _ _ _ _ hmem with h3 | h3
      · rcases htime with h4 | h4
        · exact Or.inl (by rw [h3, h4])
        · exact Or.inr (by rw [h3]; exact h4)
      · exact hacc kv h3
    have htime : (match lookupA acc.1 i with
          | some v => if v = 0 then u else v
          | none => u) = u ∨
        (i, (match lookupA acc.1 i with
          | some v => if v = 0 then u else v
          | none => u)) ∈ base := by
      cases hx : lookupA acc.1 i with
      | none => exact Or.inl rfl
      | some v =>
        by_cases hv : v = 0
        · exact Or.inl (by simp [hv])
        · simp only [if_neg hv]
          rcases hacc (i, v) (lookupA_mem _ _ _ hx) with h4 | h4
          · exact Or.inl h4
          · exact Or.inr h4
    match hurl : t.url with
    | none =>
      simp only [recomputeStep, hidt, hurl] at h
      exact hsetA _ htime h
    | some u2 =>
      by_cases hu2 : u2 = ""
      · simp only [recomputeStep, hidt, hurl, hu2, ne_eq, not_true, if_false] at h
        exact hsetA _ htime h
      · simp only [recomputeStep, hidt, hurl, hu2, ne_eq, not_false_iff, if_true] at h
        exact hsetA _ htime h

theorem recomputeFold_entries (u : Int) (base : Tmap) (ts : List Tab)
    (acc : Tmap × Umap × List String) (hacc : ∀ kv ∈ acc.1, kv.2 = u ∨ kv ∈ base) :
    ∀ kv ∈ (ts.foldl (recomputeStep u) acc).1, kv.2 = u ∨ kv ∈ base := by
  induction ts generalizing acc with
  | nil => exact hacc
  | cons t ts ih =>
    rw [List.foldl_cons]
    exact ih _ (recomputeStep_fst_entries u base acc t hacc)

theorem runCycleLocked_tabTimes_entries (s : Settings) (allTabs : List Tab)
    (windows : List Window) (activeTabs : List Tab) (cutOff updatedAt : Int)
    (st : CacheState) (kv : Nat × Int)
    (h : kv ∈ (runCycleLocked s allTabs windows activeTabs cutOff updatedAt st).2.tabTimes) :
    kv.2 = updatedAt ∨ kv ∈ st.tabTimes := by
  simp only [runCycleLocked] at h
  refine recomputeFold_entries updatedAt st.tabTimes allTabs _ ?_ kv h
  intro kv2 h2
  have h3 := (List.mem_filter.mp h2).1
  have hm2 : ∀ kv3 : Nat × Int,
      kv3 ∈ (if s.filterAudio then
          refreshTabs (refreshTabs st.tabTimes updatedAt activeTabs) updatedAt
            (allTabs.filter (·.audible))
        else refreshTabs st.tabTimes updatedAt activeTabs) →
      kv3.2 = updatedAt ∨ kv3 ∈ st.tabTimes := by
    intro kv3 h4
    by_cases hfa : s.filterAudio
    · rw [if_pos hfa] at h4
      rcases refreshTabs_entries _ _ _ _ h4 with h5 | h5
      · exact Or.inl h5
      · exact refreshTabs_entries _ _ _ _ h5
    · rw [if_neg hfa] at h4
      exact refreshTabs_entries _ _ _ _ h4
  by_cases hs : s.allWindowsStrategy
  · rw [if_pos hs] at h3
    rcases findTabsToCloseCandidates_entries _ _ _ _ _ _ _ _ _ h3 with h5 | h5
    · exact Or.inl h5
    · exact hm2 kv2 h5
  · rw [if_neg hs] at h3
    rcases windowsFold_entries _ _ _ _ _ _ _ h3 with h5 | h5
    · exact Or.inl h5
    · exact hm2 kv2 h5

theorem cut2_subset_cut1 (s : Settings) (allTabs : List Tab) (windows : List Window)
    (activeTabs : List Tab) (cutOff updatedAt : Int) (st : CacheState)
    (hco : cutOff ≠ 0) (hle : cutOff ≤ updatedAt) (i : Nat)
    (h : i ∈ getTabsOlderThan
      (runCycleLocked s allTabs windows activeTabs cutOff updatedAt st).2.tabTimes cutOff) :
    i ∈ getTabsOlderThan st.tabTimes cutOff := by
  rcases (mem_getTabsOlderThan _ _ _).mp h with ⟨v, hv, hcond⟩
  rcases hcond with h0 | hlt
  · exact absurd h0 hco
  · rcases runCycleLocked_tabTimes_entries s allTabs windows activeTabs cutOff updatedAt st
        (i, v) hv with he | he
    · exfalso
      simp only at he
      omega
    · exact (mem_getTabsOlderThan _ _ _).mpr ⟨v, he, Or.inr hlt⟩

theorem group_second_run_empty (p : Tab → Bool) (cut1 cut2 : Nat → Bool)
    (L : List Nat) (minTabs : Nat) (tabs : List Tab) (rem : Tab → Bool)
    (hL : ∀ t, p t = true → ∀ i, t.id = some i → L.contains i = false)
    (hsub : ∀ i, cut2 i = true → cut1 i = true)
    (hnodup : (tabs.filterMap (·.id)).Nodup)
    (hrem : ∀ t ∈ tabs, rem t = true ↔ t ∈ candClosed p cut1 L minTabs tabs) :
    candClosed p cut2 L minTabs (tabs.filter (fun t => ! rem t)) = [] := by
  by_cases hfloor : (tabs.filter p).length ≤ minTabs
  · have hE : candClosed p cut1 L minTabs tabs = [] := by
      simp only [candClosed, hfloor, if_true]
    have hkeepall : tabs.filter (fun t => ! rem t) = tabs := by
      apply List.filter_eq_self.mpr
      intro t ht
      have hrt := hrem t ht
      rw [hE] at hrt
      simp only [List.not_mem_nil, iff_false] at hrt
      simp only [Bool.not_eq_true'] at *
      simpa using hrt
    rw [hkeepall]
    simp only [candClosed, hfloor, if_true]
  · have hlen : minTabs < (tabs.filter p).length := Nat.not_le.mp hfloor
    set T := tabs.filter p with hTdef
    set A := T.filter (inCutB cut1) with hAdef
    set b1 := T.length - minTabs with hb1def
    set E := candClosed p cut1 L minTabs tabs with hEdef
    set q : Tab → Bool := fun t => inCutB cut2 t && ! decide (t ∈ E) with hqdef
    have hE1 : E = (A.take b1).filter (keepAsCandidate L) := by
      rw [hEdef]
      simp only [candClosed, hfloor, if_false]
    have hE2 : E = (A.take b1).filter (fun t => t.id.isSome) := by
      rw [hE1]
      apply List.filter_congr
      intro t ht
      have htT : t ∈ T := (List.mem_filter.mp (List.mem_of_mem_take ht)).1
      have hp : p t = true := (List.mem_filter.mp htT).2
      match hid : t.id with
      | none => simp [keepAsCandidate, hid]
      | some i =>
        have hli : i ∉ L := by simpa using hL t hp i hid
        simp [keepAsCandidate, hid, hli]
    have hEsubT : E.Sublist T := by
      rw [hE2]
      exact (List.filter_sublist _).trans ((List.take_sublist _ _).trans (List.filter_sublist _))
    have hTids : (T.filterMap (·.id)).Nodup := hnodup.sublist ((List.filter_sublist _).filterMap _)
    have hEids : (E.filterMap (·.id)).Nodup := hTids.sublist (hEsubT.filterMap _)
    have hEsome : ∀ e ∈ E, e.id.isSome = true := by
      intro e he
      rw [hE2] at he
      exact (List.mem_filter.mp he).2
    have hEnodup : E.Nodup := nodup_of_nodup_filterMap_id E hEids hEsome
    have hcountT : ∀ e ∈ E, T.count e ≤ 1 := by
      intro e he
      have hs := hEsome e he
      match hid : e.id with
      | none => rw [hid] at hs; simp at hs
      | some i => exact count_le_one_of_nodup_filterMap_id _ e i hTids hid
    have hT2 : (tabs.filter (fun t => ! rem t)).filter p =
        T.filter (fun t => ! decide (t ∈ E)) := by
      rw [filter_swap, ← hTdef]
      apply List.filter_congr
      intro t ht
      have htT : t ∈ tabs := List.mem_of_mem_filter ht
      have hremt : rem t = decide (t ∈ E) := by
        by_cases hmem : t ∈ E
        · simp [hmem, (hrem t htT).mpr hmem]
        · have hne : ¬ rem t = true := fun hr => hmem ((hrem t htT).mp hr)
          simp only [Bool.not_eq_true] at hne
          simp [hne, hmem]
      rw [hremt]
    have hlenT2 : ((tabs.filter (fun t => ! rem t)).filter p).length = T.length - E.length := by
      rw [hT2]
      exact length_filter_not_mem_of_sublist E T hEsubT hEnodup hcountT
    by_cases hfloor2 : ((tabs.filter (fun t => ! rem t)).filter p).length ≤ minTabs
    · simp only [candClosed, hfloor2, if_true]
    · simp only [candClosed]
      rw [if_neg hfloor2]
      apply List.filter_eq_nil_iff.mpr
      intro x hx
      have hA2 : ((tabs.filter (fun t => ! rem t)).filter p).filter (inCutB cut2) =
          (A.take b1).filter q ++ (A.drop b1).filter q := by
        rw [← List.filter_append, List.take_append_drop]
        rw [hAdef, hTdef]
        simp only [List.filter_filter]
        apply List.filter_congr
        intro t ht
        have hremt : rem t = decide (t ∈ E) := by
          by_cases hmem : t ∈ E
          · simp [hmem, (hrem t ht).mpr hmem]
          · have hne : ¬ rem t = true := fun hr => hmem ((hrem t ht).mp hr)
            simp only [Bool.not_eq_true] at hne
            simp [hne, hmem]
        have himp : inCutB cut2 t = true → inCutB cut1 t = true := by
          intro hc2
          match hid : t.id with
          | none => simp [inCutB, hid]
          | some i =>
            simp only [inCutB, hid] at hc2
            simp [inCutB, hid, hsub i hc2]
        rw [hqdef, hremt]
        cases hpt : p t <;> cases hc2 : inCutB cut2 t <;> cases hd : decide (t ∈ E) <;>
          simp_all
      have hNchar : (A.take b1).filter q = (A.take b1).filter (fun t => ! t.id.isSome) := by
        apply List.filter_congr
        intro t ht
        rw [hqdef]
        cases hts : t.id.isSome with
        | true =>
          have htE : t ∈ E := by
            rw [hE2]
            exact List.mem_filter.mpr ⟨ht, hts⟩
          simp [htE]
        | false =>
          have htnone : t.id = none := by
            match hid : t.id with
            | none => rfl
            | some i => rw [hid] at hts; simp at hts
          have htE : t ∉ E := by
            intro htE
            have := hEsome t htE
            rw [htnone] at this
            simp at this
          simp [htE, inCutB, htnone]
      have hxN : x ∈ (A.take b1).filter (fun t => ! t.id.isSome) := by
        by_cases hcase : b1 ≤ A.length
        · have hlentake : (A.take b1).length = b1 := by
            rw [List.length_take]
            omega
          have hEb1 : E.length ≤ b1 := by
            rw [hE2]
            calc ((A.take b1).filter (fun t => t.id.isSome)).length
                ≤ (A.take b1).length := List.length_filter_le _ _
              _ = b1 := hlentake
          have hlenN : ((A.take b1).filter (fun t => ! t.id.isSome)).length = b1 - E.length := by
            have hpart := length_filter_add_length_filter_not (A.take b1) (fun t => t.id.isSome)
            rw [← hE2] at hpart
            omega
          have hb2 : ((tabs.filter (fun t => ! rem t)).filter p).length - minTabs =
              ((A.take b1).filter (fun t => ! t.id.isSome)).length := by
            rw [hlenT2, hlenN]
            have hEb : E.length ≤ T.length - minTabs := by rw [← hb1def]; exact hEb1
            omega
          rw [hA2, hNchar] at hx
          rw [hb2] at hx
          rw [List.take_left] at hx
          exact hx
        · have hdrop : A.drop b1 = [] := List.drop_eq_nil_of_le (Nat.le_of_lt (Nat.not_le.mp hcase))
          rw [hA2, hNchar, hdrop] at hx
          simp only [List.filter_nil, List.append_nil] at hx
          exact List.mem_of_mem_take hx
      have hxnone : x.id = none := by
        have hxf := (List.mem_filter.mp hxN).2
        match hid : x.id with
        | none => rfl
        | some i => rw [hid] at hxf; simp at hxf
      simp [keepAsCandidate, hxnone]

theorem shouldTabBeClosed_locked_false (s : Settings) (t : Tab) (i : Nat)
    (hp : shouldTabBeClosed s t = true) (hid : t.id = some i) :
    s.lockedIds.contains i = false := by
  simp only [shouldTabBeClosed, Bool.not_eq_true', isTabLocked, Bool.or_eq_false_iff] at hp
  rcases hp with ⟨⟨⟨⟨_, _⟩, hmatch⟩, _⟩, _⟩
  rw [hid] at hmatch
  exact hmatch

/-- Counterexample to claim C9: with cutoff `0` (`now = stayOpen`, the falsy
case of `getTabsOlderThan`) and an initially empty cache, the first run
evicts nothing but seeds every live tab's cache entry; the second run then
finds every cached id in `toCut` and returns candidates. -/
theorem c9_counterexample :
    (runCycleLocked ⟨5, 1, true, [], [], false, false, false, 5⟩
      (([⟨some 1, none, none, false, false, 0, some 1, none⟩,
         ⟨some 2, none, none, false, false, 0, some 1, none⟩,
         ⟨some 3, none, none, false, false, 0, some 1, none⟩] : List Tab).filter
        (fun t => ! decide (t ∈ (runCycleLocked ⟨5, 1, true, [], [], false, false, false, 5⟩
          [⟨some 1, none, none, false, false, 0, some 1, none⟩,
           ⟨some 2, none, none, false, false, 0, some 1, none⟩,
           ⟨some 3, none, none, false, false, 0, some 1, none⟩] [] [] 0 5 ⟨[], []⟩).1)))
      [] [] 0 5
      (runCycleLocked ⟨5, 1, true, [], [], false, false, false, 5⟩
        [⟨some 1, none, none, false, false, 0, some 1, none⟩,
         ⟨some 2, none, none, false, false, 0, some 1, none⟩,
         ⟨some 3, none, none, false, false, 0, some 1, none⟩] [] [] 0 5 ⟨[], []⟩).2).1 ≠ [] := by
  decide

/-- Claim C9 (amended): running the evaluation cycle twice in immediate
succession — same clock and configuration, live tabs reflecting the first
run's evictions, cache carried over — yields no candidates on the second
run, provided the cutoff is nonzero (the falsy-cutoff case closes
everything instead, see the counterexample), the cutoff does not exceed the
cycle's `updatedAt`, and live tab ids are duplicate-free. -/
theorem c9_second_run_no_candidates (s : Settings) (allTabs : List Tab)
    (windows : List Window) (activeTabs activeTabs2 : List Tab)
    (cutOff updatedAt : Int) (st : CacheState)
    (hids : (allTabs.filterMap (·.id)).Nodup)
    (hco : cutOff ≠ 0) (hle : cutOff ≤ updatedAt) :
    (runCycleLocked s
      (allTabs.filter (fun t =>
        ! decide (t ∈ (runCycleLocked s allTabs windows activeTabs cutOff updatedAt st).1)))
      windows activeTabs2 cutOff updatedAt
      (runCycleLocked s allTabs windows activeTabs cutOff updatedAt st).2).1 = [] := by
  rw [runCycleLocked_fst s
    (allTabs.filter (fun t =>
      ! decide (t ∈ (runCycleLocked s allTabs windows activeTabs cutOff updatedAt st).1)))
    windows activeTabs2 cutOff updatedAt
    (runCycleLocked s allTabs windows activeTabs cutOff updatedAt st).2]
  have hcands1 : (runCycleLocked s allTabs windows activeTabs cutOff updatedAt st).1 =
      cycleCandidates s (fun i => (getTabsOlderThan st.tabTimes cutOff).contains i)
        allTabs windows := runCycleLocked_fst s allTabs windows activeTabs cutOff updatedAt st
  have hsub : ∀ i,
      ((getTabsOlderThan
        (runCycleLocked s allTabs windows activeTabs cutOff updatedAt st).2.tabTimes
        cutOff).contains i) = true →
      ((getTabsOlderThan st.tabTimes cutOff).contains i) = true := by
    intro i h
    have hm : i ∈ getTabsOlderThan
        (runCycleLocked s allTabs windows activeTabs cutOff updatedAt st).2.tabTimes cutOff :=
      List.elem_iff.mp h
    exact List.elem_iff.mpr
      (cut2_subset_cut1 s allTabs windows activeTabs cutOff updatedAt st hco hle i hm)
  have hL : ∀ t, shouldTabBeClosed s t = true → ∀ i, t.id = some i →
      s.lockedIds.contains i = false :=
    fun t hp i hid => shouldTabBeClosed_locked_false s t i hp hid
  by_cases hs : s.allWindowsStrategy
  · simp only [cycleCandidates, hs, if_true] at hcands1 ⊢
    refine group_second_run_empty (shouldTabBeClosed s) _ _ s.lockedIds s.minTabs allTabs
      (fun t => decide (t ∈ (runCycleLocked s allTabs windows activeTabs cutOff updatedAt st).1))
      hL hsub hids ?_
    intro t _
    rw [decide_eq_true_iff, hcands1]
  · simp only [cycleCandidates, hs, Bool.false_eq_true, if_false] at hcands1 ⊢
    apply List.flatMap_eq_nil_iff.mpr
    intro w hw
    match hwid : w.id with
    | none => rfl
    | some wid =>
      show candClosed (shouldTabBeClosed s)
        (fun i => (getTabsOlderThan
          (runCycleLocked s allTabs windows activeTabs cutOff updatedAt st).2.tabTimes
          cutOff).contains i)
        s.lockedIds s.minTabs
        ((allTabs.filter (fun t =>
            ! decide (t ∈ (runCycleLocked s allTabs windows activeTabs cutOff updatedAt st).1))).filter
          (fun t => t.windowId == some wid)) = []
      rw [filter_swap]
      have hgnodup :
          ((allTabs.filter (fun t => t.windowId == some wid)).filterMap (·.id)).Nodup :=
        hids.sublist ((List.filter_sublist _).filterMap _)
      refine group_second_run_empty (shouldTabBeClosed s) _ _ s.lockedIds s.minTabs
        (allTabs.filter (fun t => t.windowId == some wid))
        (fun t =>
          decide (t ∈ (runCycleLocked s allTabs windows activeTabs cutOff updatedAt st).1))
        hL hsub hgnodup ?_
      intro t ht
      rw [decide_eq_true_iff, hcands1]
      constructor
      · intro hmem
        rcases List.mem_flatMap.mp hmem with ⟨w2, hw2, hmem2⟩
        match hwid2 : w2.id with
        | none => rw [hwid2] at hmem2; simp at hmem2
        | some wid2 =>
          rw [hwid2] at hmem2
          have htwin2 : t.windowId = some wid2 := by
            have hmemg := mem_candClosed_mem_tabs _ _ _ _ _ _ hmem2
            have hb := (List.mem_filter.mp hmemg).2
            simpa using hb
          have htwin : t.windowId = some wid := by
            have hb := (List.mem_filter.mp ht).2
            simpa using hb
          rw [htwin] at htwin2
          injection htwin2 with hww
          rw [hww]
          exact hmem2
      · intro hmem
        refine List.mem_flatMap.mpr ⟨w, hw, ?_⟩
        rw [hwid]
        exact hmem

/-- Witness for C9 (amended) at a concrete input: one past-cutoff tab is
evicted by the first run; the second run, on the post-eviction tab set and
carried-over cache, returns no candidates. -/
theorem c9_second_run_no_candidates_witness :
    (([⟨some 1, none, none, false, false, 0, some 1, none⟩] : List Tab).filterMap
      (·.id)).Nodup ∧
    ((2 : Int) ≠ 0) ∧ ((2 : Int) ≤ 5) ∧
    (runCycleLocked ⟨1000, 0, false, [], [], false, false, false, 5⟩
      (([⟨some 1, none, none, false, false, 0, some 1, none⟩] : List Tab).filter (fun t =>
        ! decide (t ∈ (runCycleLocked ⟨1000, 0, false, [], [], false, false, false, 5⟩
          [⟨some 1, none, none, false, false, 0, some 1, none⟩] [⟨some 1, false⟩] [] 2 5
          ⟨[(1, 0)], []⟩).1)))
      [⟨some 1, false⟩] [] 2 5
      (runCycleLocked ⟨1000, 0, false, [], [], false, false, false, 5⟩
        [⟨some 1, none, none, false, false, 0, some 1, none⟩] [⟨some 1, false⟩] [] 2 5
        ⟨[(1, 0)], []⟩).2).1 = [] :=
  ⟨by decide, by decide, by decide,
   c9_second_run_no_candidates ⟨1000, 0, false, [], [], false, false, false, 5⟩
     [⟨some 1, none, none, false, false, 0, some 1, none⟩] [⟨some 1, false⟩] [] [] 2 5
     ⟨[(1, 0)], []⟩ (by decide) (by decide) (by decide)⟩
